import Mathlib

/-!
Shallow embedding of the `token` Go package (src/token.go): a dynamically
resizable counting semaphore.  The `Token` struct is embedded as `Sys`,
the buffered channel `buf` as its occupancy count `avail`, and each Go
`select` as the list of outcomes of its ready cases (an empty list means
the call blocks).  The `manager` goroutine is embedded as a step function
on `Sys`, with one event per select case followed by the re-derivation of
the `in`/`out` channels from `(target, length)` exactly as in the source.
-/

namespace Token

/-- Result of a blocking public operation (`Take`, `Release`, `SetCapacity`). -/
inductive OpResult where
  | ok
  | cancelled
  | closedErr
  | validationErr
deriving DecidableEq, Repr

/-- State of a `Token` bucket together with its manager goroutine.
`avail` is the number of markers currently in the buffered channel `buf`;
`length` and `target` are the manager's private counters; `inArmed` /
`outArmed` record whether the manager's `in` / `out` channel variables
currently point at `t.buf` (versus `nil`); `running` is true while the
manager loop has not returned; `closed` is true once the lifecycle
context `t.ctx` is done. -/
structure Sys where
  maxCapacity : Int
  avail : Nat
  length : Int
  target : Int
  inArmed : Bool
  outArmed : Bool
  running : Bool
  closed : Bool
deriving DecidableEq, Repr

/-- One non-blocking send on a buffered channel of capacity `capacity`
holding `sz` items: `none` when the send would block (channel full). -/
def chanSendNB (capacity sz : Nat) : Option Nat :=
  if sz < capacity then some (sz + 1) else none

/-- The pre-population loop of `NewToken`:
`for i := 0; i < t.length; i++ { t.buf <- struct{}{} }`, sending `n`
markers into a channel of capacity `capacity` currently holding `sz`;
`none` if any send would block. -/
def prepopulate (capacity : Nat) : Nat → Nat → Option Nat
  | 0, sz => some sz
  | n + 1, sz => (chanSendNB capacity sz).bind (prepopulate capacity n)

/-- `NewToken(ctx, maxCap, len)`: validation as in the source
(`maxCap <= 0 || len < 0 || maxCap < len`), then the bucket with `buf`
pre-populated with `len` markers, `length = len`, and the manager started
with `target := t.length` and `in = out = nil`. -/
def NewToken (maxCap len : Int) : Option Sys :=
  if maxCap ≤ 0 ∨ len < 0 ∨ maxCap < len then none
  else
    match prepopulate maxCap.toNat len.toNat 0 with
    | none => none
    | some a =>
      some { maxCapacity := maxCap, avail := a, length := len, target := len,
             inArmed := false, outArmed := false, running := true, closed := false }

/-- `Take`: outcomes of the select over `ctx.Done()`, `t.ctx.Done()` and
`<-t.buf`, given whether the caller's context is cancelled.  Every ready
case is listed; an empty list means the call blocks. -/
def Take (cancelled : Bool) (s : Sys) : List (OpResult × Sys) :=
  (if cancelled then [(OpResult.cancelled, s)] else []) ++
  (if s.closed then [(OpResult.closedErr, s)] else []) ++
  (if 0 < s.avail then [(OpResult.ok, { s with avail := s.avail - 1 })] else [])

/-- `Release`: outcomes of the select over `ctx.Done()`, `t.ctx.Done()`
and `t.buf <- struct{}{}` (ready only while `buf` is not full). -/
def Release (cancelled : Bool) (s : Sys) : List (OpResult × Sys) :=
  (if cancelled then [(OpResult.cancelled, s)] else []) ++
  (if s.closed then [(OpResult.closedErr, s)] else []) ++
  (if (s.avail : Int) < s.maxCapacity then
    [(OpResult.ok, { s with avail := s.avail + 1 })] else [])

/-- The manager's re-derivation of `in` and `out` after every select
iteration, verbatim from the source:
`if target > t.length { in = t.buf; out = nil } else if target < t.length
{ in = nil; out = t.buf } else { in = nil; out = nil }`. -/
def rederive (s : Sys) : Sys :=
  if s.length < s.target then { s with inArmed := true, outArmed := false }
  else if s.target < s.length then { s with inArmed := false, outArmed := true }
  else { s with inArmed := false, outArmed := false }

/-- One select case of the manager loop. -/
inductive MEvent where
  | done
  | insert
  | remove
  | newTarget (c : Int)
deriving DecidableEq, Repr

/-- Readiness of a manager select case: the loop must still be running;
`in <- struct{}{}` is ready when `in == t.buf` and `buf` has room;
`<-out` when `out == t.buf` and `buf` is non-empty; `<-t.ctx.Done()`
when the lifecycle context is done; `target = <-t.cap` when a caller's
`SetCapacity` passed validation, so the received value `c` satisfies
`0 <= c <= maxCapacity`. -/
def mEnabled (s : Sys) : MEvent → Bool
  | MEvent.done => s.running && s.closed
  | MEvent.insert => s.running && s.inArmed && decide ((s.avail : Int) < s.maxCapacity)
  | MEvent.remove => s.running && s.outArmed && decide (0 < s.avail)
  | MEvent.newTarget c => s.running && decide (0 ≤ c ∧ c ≤ s.maxCapacity)

/-- Body of one manager loop iteration for a fired select case: the case
body (`return`, `t.length++`, `t.length--`, or `target = <-t.cap`),
followed by the re-derivation of `in`/`out` (skipped by `return`). -/
def mStep (s : Sys) : MEvent → Sys
  | MEvent.done => { s with running := false }
  | MEvent.insert => rederive { s with avail := s.avail + 1, length := s.length + 1 }
  | MEvent.remove => rederive { s with avail := s.avail - 1, length := s.length - 1 }
  | MEvent.newTarget c => rederive { s with target := c }

/-- A system event: a manager select case firing, a caller's `Take`
succeeding via `<-t.buf`, a caller's `Release` succeeding via
`t.buf <- struct{}{}`, or the lifecycle context becoming done. -/
inductive SysEvent where
  | mgr (e : MEvent)
  | take
  | release
  | close
deriving DecidableEq, Repr

/-- Readiness of a system event. -/
def enabled (s : Sys) : SysEvent → Bool
  | SysEvent.mgr e => mEnabled s e
  | SysEvent.take => decide (0 < s.avail)
  | SysEvent.release => decide ((s.avail : Int) < s.maxCapacity)
  | SysEvent.close => true

/-- Effect of an enabled system event; an event that is not ready cannot
fire, so it leaves the state unchanged. -/
def step (s : Sys) (e : SysEvent) : Sys :=
  if enabled s e then
    match e with
    | SysEvent.mgr m => mStep s m
    | SysEvent.take => { s with avail := s.avail - 1 }
    | SysEvent.release => { s with avail := s.avail + 1 }
    | SysEvent.close => { s with closed := true }
  else s

/-- Execution of a sequence of system events. -/
def run (s : Sys) (es : List SysEvent) : Sys :=
  es.foldl step s

/-- `SetCapacity(ctx, c)`: validation `c > t.maxCapacity || c < 0` before
anything else; otherwise the outcomes of the select over `ctx.Done()`,
`t.ctx.Done()` and `t.cap <- c` (the hand-off to the manager, ready only
while the manager loop is running, and comprising the manager's receipt
of the new target). -/
def SetCapacity (cancelled : Bool) (s : Sys) (c : Int) : List (OpResult × Sys) :=
  if s.maxCapacity < c ∨ c < 0 then [(OpResult.validationErr, s)]
  else
    (if cancelled then [(OpResult.cancelled, s)] else []) ++
    (if s.closed then [(OpResult.closedErr, s)] else []) ++
    (if s.running then [(OpResult.ok, mStep s (MEvent.newTarget c))] else [])

/-! ### Helper lemmas about `rederive` -/

@[simp]
theorem rederive_length (s : Sys) : (rederive s).length = s.length := by
  unfold rederive; split_ifs <;> rfl

@[simp]
theorem rederive_target (s : Sys) : (rederive s).target = s.target := by
  unfold rederive; split_ifs <;> rfl

@[simp]
theorem rederive_maxCapacity (s : Sys) : (rederive s).maxCapacity = s.maxCapacity := by
  unfold rederive; split_ifs <;> rfl

@[simp]
theorem rederive_avail (s : Sys) : (rederive s).avail = s.avail := by
  unfold rederive; split_ifs <;> rfl

@[simp]
theorem rederive_running (s : Sys) : (rederive s).running = s.running := by
  unfold rederive; split_ifs <;> rfl

@[simp]
theorem rederive_closed (s : Sys) : (rederive s).closed = s.closed := by
  unfold rederive; split_ifs <;> rfl

theorem rederive_armed_in (s : Sys) : (rederive s).inArmed = true ↔ s.length < s.target := by
  unfold rederive; split_ifs <;> simp <;> omega

theorem rederive_armed_out (s : Sys) : (rederive s).outArmed = true ↔ s.target < s.length := by
  unfold rederive; split_ifs <;> simp <;> omega

/-! ### Helper lemmas about construction -/

theorem prepopulate_spec (capacity : Nat) :
    ∀ n sz, sz + n ≤ capacity → prepopulate capacity n sz = some (sz + n) := by
  intro n
  induction n with
  | zero => intro sz _; simp [prepopulate]
  | succ k ih =>
    intro sz h
    have hlt : sz < capacity := by omega
    have h2 := ih (sz + 1) (by omega)
    simp [prepopulate, chanSendNB, hlt, h2]
    omega

theorem NewToken_valid (maxCap len : Int) (h1 : 0 < maxCap) (h2 : 0 ≤ len)
    (h3 : len ≤ maxCap) :
    NewToken maxCap len =
      some { maxCapacity := maxCap, avail := len.toNat, length := len, target := len,
             inArmed := false, outArmed := false, running := true, closed := false } := by
  have hcond : ¬(maxCap ≤ 0 ∨ len < 0 ∨ maxCap < len) := by omega
  have hp : prepopulate maxCap.toNat len.toNat 0 = some (0 + len.toNat) :=
    prepopulate_spec _ _ _ (by omega)
  simp [NewToken, hcond, hp]

theorem NewToken_some_elim (maxCap len : Int) (t : Sys) (h : NewToken maxCap len = some t) :
    0 < maxCap ∧ 0 ≤ len ∧ len ≤ maxCap ∧
    t = { maxCapacity := maxCap, avail := len.toNat, length := len, target := len,
          inArmed := false, outArmed := false, running := true, closed := false } := by
  by_cases hc : maxCap ≤ 0 ∨ len < 0 ∨ maxCap < len
  · simp [NewToken, hc] at h
  · push_neg at hc
    obtain ⟨hm, hl, hml⟩ := hc
    rw [NewToken_valid maxCap len (by omega) (by omega) (by omega)] at h
    exact ⟨by omega, by omega, by omega, (Option.some.inj h).symm⟩

/-- C2: `Construct(maxCapacity, initialLength)` returns an error if and only if
`maxCapacity <= 0`, or `initialLength < 0`, or `initialLength > maxCapacity`;
for all other integer inputs it succeeds and returns a bucket. -/
theorem construct_error_iff (maxCap len : Int) :
    NewToken maxCap len = none ↔ (maxCap ≤ 0 ∨ len < 0 ∨ len > maxCap) := by
  constructor
  · intro h
    by_contra hc
    push_neg at hc
    obtain ⟨hm, hl, hml⟩ := hc
    rw [NewToken_valid maxCap len (by omega) (by omega) (by omega)] at h
    exact Option.noConfusion h
  · intro h
    have hc : maxCap ≤ 0 ∨ len < 0 ∨ maxCap < len := by omega
    simp [NewToken, hc]

/-- C10: construction never blocks: for every valid input, pre-populating
`available` with `initialLength` markers completes (no send would block,
since `initialLength <= maxCapacity` and `buf` has capacity `maxCapacity`),
and the bucket starts with exactly `initialLength` markers available. -/
theorem construction_never_blocks (maxCap len : Int) (h1 : 0 < maxCap) (h2 : 0 ≤ len)
    (h3 : len ≤ maxCap) :
    prepopulate maxCap.toNat len.toNat 0 = some len.toNat ∧
    ∃ t, NewToken maxCap len = some t ∧ t.avail = len.toNat := by
  refine ⟨by simpa using prepopulate_spec maxCap.toNat len.toNat 0 (by omega), ?_⟩
  exact ⟨_, NewToken_valid maxCap len h1 h2 h3, rfl⟩

theorem construction_never_blocks_witness :
    prepopulate (Int.toNat 3) (Int.toNat 2) 0 = some (Int.toNat 2) ∧
    ∃ t, NewToken 3 2 = some t ∧ t.avail = Int.toNat 2 :=
  construction_never_blocks 3 2 (by decide) (by decide) (by decide)

/-! ### Drain and matched-pair harnesses over the public operations -/

/-- A caller's `Take` that must succeed immediately (without blocking and
without any competing outcome): defined only when the select has the
single ready case `<-t.buf`. -/
def takeOnce (s : Sys) : Option Sys :=
  match Take false s with
  | [(OpResult.ok, s')] => some s'
  | _ => none

/-- `n` consecutive immediately-succeeding `Take` calls. -/
def takeN : Nat → Sys → Option Sys
  | 0, s => some s
  | n + 1, s => (takeOnce s).bind (takeN n)

/-- A caller's `Release` that must succeed immediately. -/
def releaseOnce (s : Sys) : Option Sys :=
  match Release false s with
  | [(OpResult.ok, s')] => some s'
  | _ => none

/-- One matched `Take`/`Release` pair, both succeeding. -/
def pairStep (s : Sys) : Option Sys :=
  (takeOnce s).bind releaseOnce

/-- `n` matched `Take`/`Release` pairs, all succeeding. -/
def pairN : Nat → Sys → Option Sys
  | 0, s => some s
  | n + 1, s => (pairStep s).bind (pairN n)

theorem Take_open_pos (s : Sys) (hcl : s.closed = false) (ha : 0 < s.avail) :
    Take false s = [(OpResult.ok, { s with avail := s.avail - 1 })] := by
  simp [Take, hcl, ha]

theorem Take_open_blocked (s : Sys) (hcl : s.closed = false) (ha : s.avail = 0) :
    Take false s = [] := by
  simp [Take, hcl, ha]

theorem takeOnce_open_pos (s : Sys) (hcl : s.closed = false) (ha : 0 < s.avail) :
    takeOnce s = some { s with avail := s.avail - 1 } := by
  simp [takeOnce, Take_open_pos s hcl ha]

theorem takeN_drains : ∀ (n : Nat) (s : Sys), s.closed = false → s.avail = n →
    takeN n s = some { s with avail := 0 } := by
  intro n
  induction n with
  | zero =>
    intro s hcl h0
    cases s
    simp_all [takeN]
  | succ k ih =>
    intro s hcl h0
    have ha : 0 < s.avail := by omega
    have h1 := takeOnce_open_pos s hcl ha
    have h2 := ih { s with avail := s.avail - 1 } hcl (by simp; omega)
    simp [takeN, h1, h2]

/-- C3: for every valid `(maxCapacity, initialLength)`, `Construct` succeeds
and immediately afterwards exactly `initialLength` consecutive `Acquire`
calls succeed without blocking, and the next `Acquire` blocks (the select
has no ready case). -/
theorem construct_then_drain (maxCap len : Int) (h1 : 0 < maxCap) (h2 : 0 ≤ len)
    (h3 : len ≤ maxCap) :
    ∃ t t', NewToken maxCap len = some t ∧ takeN len.toNat t = some t' ∧
      t'.avail = 0 ∧ Take false t' = [] := by
  refine ⟨_, _, NewToken_valid maxCap len h1 h2 h3, takeN_drains len.toNat _ rfl rfl,
    rfl, ?_⟩
  exact Take_open_blocked _ rfl rfl

theorem construct_then_drain_witness :
    ∃ t t', NewToken 10 5 = some t ∧ takeN (Int.toNat 5) t = some t' ∧
      t'.avail = 0 ∧ Take false t' = [] :=
  construct_then_drain 10 5 (by decide) (by decide) (by decide)

theorem pairStep_id (s s' : Sys) (h : pairStep s = some s') : s' = s := by
  obtain ⟨mc, av, ln, tg, ia, oa, rn, cl⟩ := s
  cases cl
  · rcases Nat.eq_zero_or_pos av with ha | ha
    · subst ha
      simp [pairStep, takeOnce, Take] at h
    · have hb' : ((av - 1 : Nat) : Int) = (av : Int) - 1 := by omega
      by_cases hb : (av : Int) - 1 < mc
      · simp [pairStep, takeOnce, releaseOnce, Take, Release, ha, hb, hb',
          Nat.sub_add_cancel ha] at h
        exact h.symm
      · simp [pairStep, takeOnce, releaseOnce, Take, Release, ha, hb, hb'] at h
  · rcases Nat.eq_zero_or_pos av with ha | ha
    · subst ha
      simp [pairStep, takeOnce, Take] at h
    · simp [pairStep, takeOnce, Take, ha] at h

/-- C8: for every starting state and every `N >= 0`, executing `N` successful
`Acquire` calls each matched by a successful `Release` (no resize activity in
between) leaves the count of tokens in `available` unchanged. -/
theorem matched_pairs_preserve_avail (n : Nat) (s s' : Sys) (h : pairN n s = some s') :
    s'.avail = s.avail := by
  induction n generalizing s with
  | zero =>
    simp [pairN] at h
    simp [h]
  | succ k ih =>
    simp only [pairN, Option.bind_eq_some] at h
    obtain ⟨s1, h1, h2⟩ := h
    rw [ih s1 h2, pairStep_id s s1 h1]

def sampleSys : Sys :=
  { maxCapacity := 3, avail := 2, length := 2, target := 2,
    inArmed := false, outArmed := false, running := true, closed := false }

theorem matched_pairs_preserve_avail_witness : sampleSys.avail = sampleSys.avail :=
  matched_pairs_preserve_avail 2 sampleSys sampleSys (by decide)

/-- C9: a successful `Acquire` removes exactly one marker from `available`
and leaves the manager's `length` and `target` (and every other field)
unchanged. -/
theorem take_frame (cancelled : Bool) (s s' : Sys)
    (h : (OpResult.ok, s') ∈ Take cancelled s) :
    s' = { s with avail := s.avail - 1 } ∧ 0 < s.avail ∧
    s'.length = s.length ∧ s'.target = s.target := by
  cases cancelled <;> cases hcl : s.closed <;> by_cases ha : 0 < s.avail <;>
    simp [Take, hcl, ha] at h <;> subst h <;> simp [ha]

theorem take_frame_witness :
    ({ sampleSys with avail := 1 } : Sys) = { sampleSys with avail := sampleSys.avail - 1 } ∧
    0 < sampleSys.avail ∧
    ({ sampleSys with avail := 1 } : Sys).length = sampleSys.length ∧
    ({ sampleSys with avail := 1 } : Sys).target = sampleSys.target :=
  take_frame false sampleSys { sampleSys with avail := 1 } (by decide)

/-! ### The manager invariant -/

/-- Inductive invariant of the system: the manager's counters stay within
`[0, maxCapacity]`, and an armed `in` (resp. `out`) channel always records
a pending grow (resp. shrink) decision, i.e. `length < target`
(resp. `target < length`) as derived by the manager's last re-derivation. -/
def Inv (s : Sys) : Prop :=
  0 ≤ s.length ∧ s.length ≤ s.maxCapacity ∧
  0 ≤ s.target ∧ s.target ≤ s.maxCapacity ∧
  (s.inArmed = true → s.length < s.target) ∧
  (s.outArmed = true → s.target < s.length)

theorem rederive_inv (s : Sys) (h1 : 0 ≤ s.length) (h2 : s.length ≤ s.maxCapacity)
    (h3 : 0 ≤ s.target) (h4 : s.target ≤ s.maxCapacity) : Inv (rederive s) := by
  refine ⟨by simpa using h1, by simpa using h2, by simpa using h3, by simpa using h4,
    ?_, ?_⟩
  · intro h
    simpa using (rederive_armed_in s).mp h
  · intro h
    simpa using (rederive_armed_out s).mp h

theorem step_inv (s : Sys) (e : SysEvent) (h : Inv s) : Inv (step s e) := by
  obtain ⟨h1, h2, h3, h4, h5, h6⟩ := h
  by_cases he : enabled s e = true
  · cases e with
    | mgr m =>
      cases m with
      | done =>
        simp only [step, he, if_true, mStep]
        exact ⟨h1, h2, h3, h4, h5, h6⟩
      | insert =>
        have hin : s.inArmed = true := by
          simp [enabled, mEnabled] at he
          tauto
        have hlt := h5 hin
        simp only [step, he, if_true, mStep]
        refine rederive_inv _ ?_ ?_ ?_ ?_ <;> simp <;> omega
      | remove =>
        have hout : s.outArmed = true := by
          simp [enabled, mEnabled] at he
          tauto
        have hlt := h6 hout
        simp only [step, he, if_true, mStep]
        refine rederive_inv _ ?_ ?_ ?_ ?_ <;> simp <;> omega
      | newTarget c =>
        have hc : 0 ≤ c ∧ c ≤ s.maxCapacity := by
          simp [enabled, mEnabled] at he
          tauto
        simp only [step, he, if_true, mStep]
        refine rederive_inv _ ?_ ?_ ?_ ?_ <;> simp <;> omega
    | take =>
      simp only [step, he, if_true]
      exact ⟨h1, h2, h3, h4, h5, h6⟩
    | release =>
      simp only [step, he, if_true]
      exact ⟨h1, h2, h3, h4, h5, h6⟩
    | close =>
      simp only [step, he, if_true]
      exact ⟨h1, h2, h3, h4, h5, h6⟩
  · simp only [step, he, if_false]
    exact ⟨h1, h2, h3, h4, h5, h6⟩

theorem run_inv (es : List SysEvent) : ∀ s, Inv s → Inv (run s es) := by
  induction es with
  | nil => intro s h; exact h
  | cons e tl ih => intro s h; exact ih (step s e) (step_inv s e h)

theorem step_maxCapacity (s : Sys) (e : SysEvent) :
    (step s e).maxCapacity = s.maxCapacity := by
  by_cases he : enabled s e = true
  · cases e with
    | mgr m => cases m <;> simp [step, he, mStep]
    | take => simp [step, he]
    | release => simp [step, he]
    | close => simp [step, he]
  · simp [step, he]

theorem run_maxCapacity (es : List SysEvent) : ∀ s, (run s es).maxCapacity = s.maxCapacity := by
  induction es with
  | nil => intro s; rfl
  | cons e tl ih =>
    intro s
    calc (run (step s e) tl).maxCapacity = (step s e).maxCapacity := ih (step s e)
    _ = s.maxCapacity := step_maxCapacity s e

theorem NewToken_inv (maxCap len : Int) (t : Sys) (h : NewToken maxCap len = some t) :
    Inv t := by
  obtain ⟨h1, h2, h3, ht⟩ := NewToken_some_elim maxCap len t h
  subst ht
  exact ⟨h2, h3, h2, h3, by simp, by simp⟩

/-- C1: for every sequence of operations and manager steps starting from a
successfully constructed bucket, the manager's private counter satisfies
`0 <= length <= maxCapacity` in every reachable state. -/
theorem length_invariant (maxCap len : Int) (t : Sys) (h : NewToken maxCap len = some t)
    (es : List SysEvent) :
    0 ≤ (run t es).length ∧ (run t es).length ≤ maxCap := by
  have hinv := run_inv es t (NewToken_inv maxCap len t h)
  have hmc : (run t es).maxCapacity = maxCap := by
    rw [run_maxCapacity es t, (NewToken_some_elim maxCap len t h).2.2.2]
  exact ⟨hinv.1, hmc ▸ hinv.2.1⟩

theorem length_invariant_witness :
    0 ≤ (run sampleSys [SysEvent.mgr (MEvent.newTarget 3), SysEvent.mgr MEvent.insert,
      SysEvent.take]).length ∧
    (run sampleSys [SysEvent.mgr (MEvent.newTarget 3), SysEvent.mgr MEvent.insert,
      SysEvent.take]).length ≤ 3 :=
  length_invariant 3 2 sampleSys (by decide)
    [SysEvent.mgr (MEvent.newTarget 3), SysEvent.mgr MEvent.insert, SysEvent.take]

/-! ### The manager as a three-state machine -/

theorem rederive_consistent (s : Sys) :
    ((rederive s).inArmed = true ↔ (rederive s).length < (rederive s).target) ∧
    ((rederive s).outArmed = true ↔ (rederive s).target < (rederive s).length) ∧
    ((rederive s).target = (rederive s).length →
      (rederive s).inArmed = false ∧ (rederive s).outArmed = false) := by
  refine ⟨by simpa using rederive_armed_in s, by simpa using rederive_armed_out s, ?_⟩
  intro h
  simp only [rederive_target, rederive_length] at h
  constructor
  · cases hb : (rederive s).inArmed
    · rfl
    · exact absurd ((rederive_armed_in s).mp hb) (by omega)
  · cases hb : (rederive s).outArmed
    · rfl
    · exact absurd ((rederive_armed_out s).mp hb) (by omega)

/-- C5: each manager iteration is a three-state machine selected by comparing
`target` to `length`: an insertion is offered only when armed in the Growing
state (where `length < target`) and increments `length` together with the
completed insertion; a removal is offered only when armed in the Shrinking
state and decrements `length` together with the completed removal; a new
target changes neither `length` nor `available`; and after the step the
`in`/`out` offers are re-derived from the new `(target, length)`, so in the
Steady state (`target == length`) neither is offered. -/
theorem manager_three_state (s : Sys) (e : MEvent) (c0 : Int)
    (hen : mEnabled s e = true) (hne : e ≠ MEvent.done) (hinv : Inv s) :
    ((mStep s e).inArmed = true ↔ (mStep s e).length < (mStep s e).target) ∧
    ((mStep s e).outArmed = true ↔ (mStep s e).target < (mStep s e).length) ∧
    ((mStep s e).target = (mStep s e).length →
      (mStep s e).inArmed = false ∧ (mStep s e).outArmed = false) ∧
    (e = MEvent.insert → s.inArmed = true ∧ s.length < s.target ∧
      (mStep s e).length = s.length + 1 ∧ (mStep s e).avail = s.avail + 1) ∧
    (e = MEvent.remove → s.outArmed = true ∧ s.target < s.length ∧
      (mStep s e).length = s.length - 1 ∧ (mStep s e).avail = s.avail - 1) ∧
    (e = MEvent.newTarget c0 → (mStep s e).length = s.length ∧
      (mStep s e).avail = s.avail ∧ (mStep s e).target = c0) := by
  cases e with
  | done => exact absurd rfl hne
  | insert =>
    have hin : s.inArmed = true := by
      simp [mEnabled] at hen
      tauto
    have hlt := hinv.2.2.2.2.1 hin
    obtain ⟨c1, c2, c3⟩ :=
      rederive_consistent { s with avail := s.avail + 1, length := s.length + 1 }
    refine ⟨c1, c2, c3, ?_, ?_, ?_⟩
    · intro _
      exact ⟨hin, hlt, by simp [mStep], by simp [mStep]⟩
    · intro hco
      simp at hco
    · intro hco
      simp at hco
  | remove =>
    have hout : s.outArmed = true := by
      simp [mEnabled] at hen
      tauto
    have hlt := hinv.2.2.2.2.2 hout
    obtain ⟨c1, c2, c3⟩ :=
      rederive_consistent { s with avail := s.avail - 1, length := s.length - 1 }
    refine ⟨c1, c2, c3, ?_, ?_, ?_⟩
    · intro hco
      simp at hco
    · intro _
      exact ⟨hout, hlt, by simp [mStep], by simp [mStep]⟩
    · intro hco
      simp at hco
  | newTarget c =>
    obtain ⟨c1, c2, c3⟩ := rederive_consistent { s with target := c }
    refine ⟨c1, c2, c3, ?_, ?_, ?_⟩
    · intro hco
      simp at hco
    · intro hco
      simp at hco
    · intro hco
      injection hco with hc
      subst hc
      exact ⟨by simp [mStep], by simp [mStep], by simp [mStep]⟩

def growSample : Sys :=
  { maxCapacity := 3, avail := 2, length := 2, target := 3,
    inArmed := true, outArmed := false, running := true, closed := false }

theorem manager_three_state_witness :
    ((mStep growSample MEvent.insert).inArmed = true ↔
      (mStep growSample MEvent.insert).length < (mStep growSample MEvent.insert).target) ∧
    ((mStep growSample MEvent.insert).outArmed = true ↔
      (mStep growSample MEvent.insert).target < (mStep growSample MEvent.insert).length) ∧
    ((mStep growSample MEvent.insert).target = (mStep growSample MEvent.insert).length →
      (mStep growSample MEvent.insert).inArmed = false ∧
      (mStep growSample MEvent.insert).outArmed = false) ∧
    (MEvent.insert = MEvent.insert → growSample.inArmed = true ∧
      growSample.length < growSample.target ∧
      (mStep growSample MEvent.insert).length = growSample.length + 1 ∧
      (mStep growSample MEvent.insert).avail = growSample.avail + 1) ∧
    (MEvent.insert = MEvent.remove → growSample.outArmed = true ∧
      growSample.target < growSample.length ∧
      (mStep growSample MEvent.insert).length = growSample.length - 1 ∧
      (mStep growSample MEvent.insert).avail = growSample.avail - 1) ∧
    (MEvent.insert = MEvent.newTarget 1 → (mStep growSample MEvent.insert).length = growSample.length ∧
      (mStep growSample MEvent.insert).avail = growSample.avail ∧
      (mStep growSample MEvent.insert).target = 1) :=
  manager_three_state growSample MEvent.insert 1 (by decide) (by decide)
    (by refine ⟨?_, ?_, ?_, ?_, ?_, ?_⟩ <;> decide)

theorem step_length_change (s : Sys) (e : SysEvent) :
    (step s e).length = s.length ∨ (step s e).length = s.length + 1 ∨
    (step s e).length = s.length - 1 := by
  by_cases he : enabled s e = true
  · cases e with
    | mgr m => cases m <;> simp [step, he, mStep]
    | take => simp [step, he]
    | release => simp [step, he]
    | close => simp [step, he]
  · simp [step, he]

/-- C7: target updates are last-write-wins (receiving a new target overwrites
the pending one, whatever it was), the manager's insert and remove offers are
never armed simultaneously in any reachable state, and every single step
changes `length` by at most one (at most one insert-or-remove in flight). -/
theorem target_last_write_wins (maxCap len c : Int) (t : Sys)
    (h : NewToken maxCap len = some t) (es : List SysEvent) (e : SysEvent) :
    (mStep (run t es) (MEvent.newTarget c)).target = c ∧
    ¬((run t es).inArmed = true ∧ (run t es).outArmed = true) ∧
    ((step (run t es) e).length = (run t es).length ∨
     (step (run t es) e).length = (run t es).length + 1 ∨
     (step (run t es) e).length = (run t es).length - 1) := by
  have hinv := run_inv es t (NewToken_inv maxCap len t h)
  refine ⟨by simp [mStep], ?_, step_length_change _ e⟩
  rintro ⟨hin, hout⟩
  have h1 := hinv.2.2.2.2.1 hin
  have h2 := hinv.2.2.2.2.2 hout
  omega

theorem target_last_write_wins_witness :
    (mStep (run sampleSys [SysEvent.take]) (MEvent.newTarget 1)).target = 1 ∧
    ¬((run sampleSys [SysEvent.take]).inArmed = true ∧
      (run sampleSys [SysEvent.take]).outArmed = true) ∧
    ((step (run sampleSys [SysEvent.take]) SysEvent.release).length =
      (run sampleSys [SysEvent.take]).length ∨
     (step (run sampleSys [SysEvent.take]) SysEvent.release).length =
      (run sampleSys [SysEvent.take]).length + 1 ∨
     (step (run sampleSys [SysEvent.take]) SysEvent.release).length =
      (run sampleSys [SysEvent.take]).length - 1) :=
  target_last_write_wins 3 2 1 sampleSys (by decide) [SysEvent.take] SysEvent.release

/-- C4: `Resize(newTarget)` yields a validation error if and only if
`newTarget < 0` or `newTarget > maxCapacity`, and in the error case the
validation error is the unique outcome and the state is untouched (the
validation happens before the hand-off to the manager). -/
theorem resize_validation (cancelled : Bool) (s : Sys) (c : Int) :
    ((∃ s', (OpResult.validationErr, s') ∈ SetCapacity cancelled s c) ↔
      (c < 0 ∨ c > s.maxCapacity)) ∧
    ((c < 0 ∨ c > s.maxCapacity) →
      SetCapacity cancelled s c = [(OpResult.validationErr, s)]) := by
  by_cases hv : s.maxCapacity < c ∨ c < 0
  · refine ⟨?_, fun _ => by simp [SetCapacity, hv]⟩
    simp only [SetCapacity, if_pos hv]
    simp
    omega
  · refine ⟨?_, fun hc => (hv (by omega)).elim⟩
    simp only [SetCapacity, if_neg hv]
    cases cancelled <;> cases hcl : s.closed <;> cases hrn : s.running <;>
      simp [hcl, hrn] <;> omega

theorem resize_validation_witness :
    ((∃ s', (OpResult.validationErr, s') ∈ SetCapacity false sampleSys 5) ↔
      ((5 : Int) < 0 ∨ (5 : Int) > sampleSys.maxCapacity)) ∧
    (((5 : Int) < 0 ∨ (5 : Int) > sampleSys.maxCapacity) →
      SetCapacity false sampleSys 5 = [(OpResult.validationErr, sampleSys)]) :=
  resize_validation false sampleSys 5

/-- C6: once the lifecycle signal has fired, the manager's `return` case is
ready and ends the loop; after the loop has returned no manager select case
can ever fire again; a subsequent valid `Resize` then fails with the closed
cause as its unique outcome; and a `Take` that would block (no token
available) or a `Release` that would block (store full) fails with the
closed cause as its unique outcome. -/
theorem closed_shutdown (s : Sys) (c : Int) (e0 : MEvent) (hcl : s.closed = true) :
    (s.running = true → mEnabled s MEvent.done = true) ∧
    (mStep s MEvent.done).running = false ∧
    mEnabled (mStep s MEvent.done) e0 = false ∧
    (s.running = false → ¬(s.maxCapacity < c ∨ c < 0) →
      SetCapacity false s c = [(OpResult.closedErr, s)]) ∧
    (s.avail = 0 → Take false s = [(OpResult.closedErr, s)]) ∧
    (s.maxCapacity ≤ (s.avail : Int) → Release false s = [(OpResult.closedErr, s)]) := by
  refine ⟨?_, rfl, ?_, ?_, ?_, ?_⟩
  · intro hr
    simp [mEnabled, hr, hcl]
  · cases e0 <;> simp [mStep, mEnabled]
  · intro hr hv
    simp [SetCapacity, hv, hcl, hr]
  · intro ha
    simp [Take, hcl, ha]
  · intro hfull
    have hnb : ¬((s.avail : Int) < s.maxCapacity) := by omega
    simp [Release, hcl, hnb]

def closedSample : Sys :=
  { maxCapacity := 3, avail := 0, length := 0, target := 0,
    inArmed := false, outArmed := false, running := false, closed := true }

theorem closed_shutdown_witness :
    (closedSample.running = true → mEnabled closedSample MEvent.done = true) ∧
    (mStep closedSample MEvent.done).running = false ∧
    mEnabled (mStep closedSample MEvent.done) MEvent.insert = false ∧
    (closedSample.running = false → ¬(closedSample.maxCapacity < 2 ∨ (2 : Int) < 0) →
      SetCapacity false closedSample 2 = [(OpResult.closedErr, closedSample)]) ∧
    (closedSample.avail = 0 → Take false closedSample = [(OpResult.closedErr, closedSample)]) ∧
    (closedSample.maxCapacity ≤ (closedSample.avail : Int) →
      Release false closedSample = [(OpResult.closedErr, closedSample)]) :=
  closed_shutdown closedSample 2 MEvent.insert (by decide)

end Token
